import Mathlib

/-!
Verification of `generate_repo.py` (Kodi repository generator).

Strings from the Python source are modelled as `List Char`; file bytes as
`List Nat` (each `< 256`).  Every definition in the `RepoGen` namespace is a
direct shallow embedding of the corresponding Python function, keeping the
source's names where Lean allows it.
-/

namespace RepoGen

/-- Shorthand: the character list of a string literal. -/
def str (s : String) : List Char := s.toList

/-- Characters stripped by Python's `str.strip()` (the `str.isspace` set). -/
def pyIsSpace (c : Char) : Bool :=
  decide (c ∈ [' ', '\t', '\n', '\r', '\x0b', '\x0c',
    '\x1c', '\x1d', '\x1e', '\x1f', '\x85', '\xa0',
    ' ', ' ', ' ', ' ', ' ', ' ', ' ',
    ' ', ' ', ' ', ' ', ' ',
    ' ', ' ', ' ', ' ', '　'])

/-- Python `s.strip()`: drop leading and trailing whitespace. -/
def pyStrip (s : List Char) : List Char :=
  ((s.dropWhile pyIsSpace).reverse.dropWhile pyIsSpace).reverse

/-- Line-break characters recognised by Python's `str.splitlines()`. -/
def pyIsLineBreak (c : Char) : Bool :=
  decide (c ∈ ['\n', '\r', '\x0b', '\x0c', '\x1c', '\x1d', '\x1e', '\x85',
    ' ', ' '])

/-- Worker for `pySplitlines`; `acc` holds the current line reversed and
`afterCR` records that the previous character was `'\r'` whose line was
already emitted, so an immediately following `'\n'` is part of the same
`"\r\n"` break and is skipped.  Any other line-break character ends a line
by itself. -/
def pySplitlinesAux : List Char → List Char → Bool → List (List Char)
  | [], acc, _ => if acc.isEmpty then [] else [acc.reverse]
  | c :: rest, acc, afterCR =>
    if afterCR && c = '\n' then pySplitlinesAux rest acc false
    else if c = '\r' then acc.reverse :: pySplitlinesAux rest [] true
    else if pyIsLineBreak c then acc.reverse :: pySplitlinesAux rest [] false
    else pySplitlinesAux rest (c :: acc) false

/-- Python `s.splitlines()`. -/
def pySplitlines (s : List Char) : List (List Char) := pySplitlinesAux s [] false

/-- Python `"\n".join(parts)`. -/
def joinLines : List (List Char) → List Char
  | [] => []
  | [x] => x
  | x :: xs => x ++ '\n' :: joinLines xs

/-- The first element of `parts` in `generate_addons_xml`. -/
def xmlHeader : List Char := str "<?xml version=\"1.0\" encoding=\"UTF-8\"?>\n<addons>"

/-- The last element of `parts` in `generate_addons_xml`. -/
def xmlFooter : List Char := str "</addons>\n"

/-- The loop body of `generate_addons_xml` for a single fragment: strip the
fragment, split into lines, drop lines whose stripped form starts with
`<?xml`, and re-join with newlines. -/
def mergeFragment (xml_content : List Char) : List Char :=
  let lines := pySplitlines (pyStrip xml_content)
  let filtered := lines.filter fun line => !(List.isPrefixOf (str "<?xml") (pyStrip line))
  joinLines filtered

/-- `generate_addons_xml` from the source: build `parts` and join with `"\n"`. -/
def generate_addons_xml (addon_xmls : List (List Char)) : List Char :=
  joinLines ([xmlHeader] ++ addon_xmls.map mergeFragment ++ [xmlFooter])

/-! ## Archive Inspector (`extract_addon_xml`) -/

/-- An archive entry: internal path and decoded text content.  `zipfile`
entries carry bytes; the source decodes the selected entry as UTF-8, so the
model stores the decoded text directly. -/
abbrev ZipEntry := List Char × List Char

/-- `os.path.basename` (posixpath): everything after the last `/`. -/
def posixBasename (p : List Char) : List Char :=
  (p.reverse.takeWhile (· ≠ '/')).reverse

/-- `os.path.dirname` (posixpath): everything up to the last `/`, with
trailing slashes removed unless the head is all slashes. -/
def posixDirname (p : List Char) : List Char :=
  let head := (p.reverse.dropWhile (· ≠ '/')).reverse
  if head ≠ [] ∧ head.any (· ≠ '/') then
    (head.reverse.dropWhile (· = '/')).reverse
  else head

/-- Python `s.rstrip("/")`. -/
def rstripSlash (s : List Char) : List Char :=
  (s.reverse.dropWhile (· = '/')).reverse

/-- The qualification test of the loop in `extract_addon_xml`: basename is
`addon.xml` and the (slash-stripped) dirname is `""` or the addon id. -/
def qualifies (name addon_id : List Char) : Bool :=
  let basename := posixBasename name
  let dirname := rstripSlash (posixDirname name)
  decide (basename = str "addon.xml") &&
    (decide (dirname = []) || decide (dirname = addon_id))

/-- `extract_addon_xml` from the source: scan `zf.namelist()` in order and
return the decoded content of the first qualifying entry, else `None`. -/
def extract_addon_xml : List ZipEntry → List Char → Option (List Char)
  | [], _ => none
  | e :: rest, addon_id =>
    if qualifies e.1 addon_id then some e.2 else extract_addon_xml rest addon_id

/-! ## Checksum Engine (`md5sum`, `md5_string`)

The MD5 algorithm itself lives in `hashlib`; it is embedded here in full
(RFC 1321) over `List Nat` bytes, with 32-bit words as `Nat` reduced
`% 2 ^ 32`.  `hashlib`'s incremental interface is modelled by its semantics:
the digest is MD5 of the concatenation of all bytes fed to `update`. -/

/-- Reduce to a 32-bit word. -/
def w32 (n : Nat) : Nat := n % 4294967296

/-- 32-bit left rotation (argument assumed `< 2 ^ 32`). -/
def rotl32 (x s : Nat) : Nat := w32 (x <<< s) ||| (x >>> (32 - s))

/-- MD5 round function F. -/
def md5F (b c d : Nat) : Nat := (b &&& c) ||| ((b ^^^ 4294967295) &&& d)

/-- MD5 round function G. -/
def md5G (b c d : Nat) : Nat := (d &&& b) ||| ((d ^^^ 4294967295) &&& c)

/-- MD5 round function H. -/
def md5H (b c d : Nat) : Nat := b ^^^ c ^^^ d

/-- MD5 round function I. -/
def md5I (b c d : Nat) : Nat := c ^^^ (b ||| (d ^^^ 4294967295))

/-- The 64 MD5 sine-derived constants. -/
def md5K : List Nat :=
  [0xd76aa478, 0xe8c7b756, 0x242070db, 0xc1bdceee,
   0xf57c0faf, 0x4787c62a, 0xa8304613, 0xfd469501,
   0x698098d8, 0x8b44f7af, 0xffff5bb1, 0x895cd7be,
   0x6b901122, 0xfd987193, 0xa679438e, 0x49b40821,
   0xf61e2562, 0xc040b340, 0x265e5a51, 0xe9b6c7aa,
   0xd62f105d, 0x02441453, 0xd8a1e681, 0xe7d3fbc8,
   0x21e1cde6, 0xc33707d6, 0xf4d50d87, 0x455a14ed,
   0xa9e3e905, 0xfcefa3f8, 0x676f02d9, 0x8d2a4c8a,
   0xfffa3942, 0x8771f681, 0x6d9d6122, 0xfde5380c,
   0xa4beea44, 0x4bdecfa9, 0xf6bb4b60, 0xbebfbc70,
   0x289b7ec6, 0xeaa127fa, 0xd4ef3085, 0x04881d05,
   0xd9d4d039, 0xe6db99e5, 0x1fa27cf8, 0xc4ac5665,
   0xf4292244, 0x432aff97, 0xab9423a7, 0xfc93a039,
   0x655b59c3, 0x8f0ccc92, 0xffeff47d, 0x85845dd1,
   0x6fa87e4f, 0xfe2ce6e0, 0xa3014314, 0x4e0811a1,
   0xf7537e82, 0xbd3af235, 0x2ad7d2bb, 0xeb86d391]

/-- The 64 MD5 per-round shift amounts. -/
def md5S : List Nat :=
  [7, 12, 17, 22, 7, 12, 17, 22, 7, 12, 17, 22, 7, 12, 17, 22,
   5, 9, 14, 20, 5, 9, 14, 20, 5, 9, 14, 20, 5, 9, 14, 20,
   4, 11, 16, 23, 4, 11, 16, 23, 4, 11, 16, 23, 4, 11, 16, 23,
   6, 10, 15, 21, 6, 10, 15, 21, 6, 10, 15, 21, 6, 10, 15, 21]

/-- Split a list into consecutive chunks of `n` elements (all of `n` zero
ends up in one chunk to keep the function total; callers use `n > 0`). -/
def chunksOf {α : Type} (n : Nat) : List α → List (List α)
  | [] => []
  | a :: l =>
    if n = 0 then [a :: l]
    else (a :: l).take n :: chunksOf n ((a :: l).drop n)
termination_by l => l.length
decreasing_by
  simp only [List.length_drop, List.length_cons]
  omega

/-- Little-endian byte decoding of a word. -/
def fromLEBytes (l : List Nat) : Nat := l.foldr (fun b acc => b + 256 * acc) 0

/-- Little-endian byte encoding of `n` into `k` bytes. -/
def toLEBytes (k n : Nat) : List Nat :=
  (List.range k).map fun i => (n >>> (8 * i)) % 256

/-- One MD5 operation (round `i`) on the running `(a, b, c, d)` state. -/
def md5Round (M : List Nat) (st : Nat × Nat × Nat × Nat) (i : Nat) :
    Nat × Nat × Nat × Nat :=
  let (a, b, c, d) := st
  let f := if i < 16 then md5F b c d
    else if i < 32 then md5G b c d
    else if i < 48 then md5H b c d
    else md5I b c d
  let g := if i < 16 then i
    else if i < 32 then (5 * i + 1) % 16
    else if i < 48 then (3 * i + 5) % 16
    else (7 * i) % 16
  let tmp := w32 (f + a + md5K.getD i 0 + M.getD g 0)
  (d, w32 (b + rotl32 tmp (md5S.getD i 0)), b, c)

/-- Process one padded 64-byte block. -/
def md5Block (st : Nat × Nat × Nat × Nat) (block : List Nat) :
    Nat × Nat × Nat × Nat :=
  let M := (chunksOf 4 block).map fromLEBytes
  let (a0, b0, c0, d0) := st
  let (a, b, c, d) := (List.range 64).foldl (md5Round M) st
  (w32 (a0 + a), w32 (b0 + b), w32 (c0 + c), w32 (d0 + d))

/-- MD5 padding: `0x80`, zeros to 56 mod 64, then the bit length as 8
little-endian bytes. -/
def md5Pad (msg : List Nat) : List Nat :=
  let L := msg.length
  msg ++ [128] ++ List.replicate ((119 - L % 64) % 64) 0 ++
    toLEBytes 8 ((8 * L) % 18446744073709551616)

/-- The 16-byte MD5 digest of a byte sequence. -/
def md5Bytes (msg : List Nat) : List Nat :=
  let st := (chunksOf 64 (md5Pad msg)).foldl md5Block
    (0x67452301, 0xefcdab89, 0x98badcfe, 0x10325476)
  let (a, b, c, d) := st
  [a, b, c, d].flatMap (toLEBytes 4)

/-- The lowercase hexadecimal alphabet used by `hexdigest()`. -/
def hexDigits : List Char := str "0123456789abcdef"

/-- Two lowercase hex characters for one byte. -/
def byteToHex (b : Nat) : List Char :=
  [hexDigits.getD (b / 16 % 16) '0', hexDigits.getD (b % 16) '0']

/-- `hexdigest()`: the digest bytes rendered as lowercase hex. -/
def md5Hex (msg : List Nat) : List Char := (md5Bytes msg).flatMap byteToHex

/-- UTF-8 encoding of one character (Python `str.encode("utf-8")`). -/
def utf8EncodeChar (c : Char) : List Nat :=
  let n := c.toNat
  if n < 128 then [n]
  else if n < 2048 then [192 ||| (n >>> 6), 128 ||| (n &&& 63)]
  else if n < 65536 then
    [224 ||| (n >>> 12), 128 ||| ((n >>> 6) &&& 63), 128 ||| (n &&& 63)]
  else
    [240 ||| (n >>> 18), 128 ||| ((n >>> 12) &&& 63),
     128 ||| ((n >>> 6) &&& 63), 128 ||| (n &&& 63)]

/-- UTF-8 encoding of a string. -/
def utf8Encode (s : List Char) : List Nat := s.flatMap utf8EncodeChar

/-- `md5sum` from the source: feed the file to the hash in 8192-byte chunks;
the digest is MD5 of the bytes accumulated by the successive `update` calls. -/
def md5sum (file : List Nat) : List Char :=
  md5Hex ((chunksOf 8192 file).foldl (fun fed chunk => fed ++ chunk) [])

/-- `md5_string` from the source: MD5 of the UTF-8 encoding, in one call. -/
def md5_string (content : List Char) : List Char := md5Hex (utf8Encode content)

/-! ## The output tree

The `dist/` directory is modelled by the flat shape this program builds:
text or archive files at the root, plus one level of per-addon
subdirectories (the program never nests directories further).  Directory
listing order models `iterdir`/`os.walk` iteration order. -/

/-- Content of one file in the output tree.  Archive files carry their entry
list; a corrupt archive is outside the model of the download interface
(section 6 of the spec: a downloaded asset is an archive file). -/
inductive FileContent where
  | text : List Char → FileContent
  | archive : List ZipEntry → FileContent
deriving DecidableEq

/-- The raw bytes of a file as seen by `md5sum`.  Text files are written
UTF-8; for archives the ZIP container serialization is external to this
repository, so an explicit byte encoding of the entries stands in for it
(no claim depends on archive bytes). -/
def fileBytes : FileContent → List Nat
  | .text s => utf8Encode s
  | .archive entries =>
    entries.flatMap fun e => utf8Encode e.1 ++ [0] ++ utf8Encode e.2 ++ [1]

/-- A directory: file names with contents, in iteration order. -/
abbrev DirFiles := List (List Char × FileContent)

/-- The `dist/` tree: root files and addon subdirectories. -/
structure OutputTree where
  rootFiles : DirFiles
  dirs : List (List Char × DirFiles)
deriving DecidableEq

/-- Write a file into a directory, clobbering an existing one of the same
name (models `open(..., "w")`, `--clobber` and `shutil.copy2`). -/
def putFile (files : DirFiles) (name : List Char) (c : FileContent) : DirFiles :=
  if files.any fun e => decide (e.1 = name) then
    files.map fun e => if e.1 = name then (name, c) else e
  else files ++ [(name, c)]

/-- `mkdir(parents=True, exist_ok=True)` for an addon subdirectory. -/
def ensureDir (t : OutputTree) (name : List Char) : OutputTree :=
  if t.dirs.any fun d => decide (d.1 = name) then t
  else { t with dirs := t.dirs ++ [(name, [])] }

/-- The files of a subdirectory (empty if absent). -/
def dirFiles (t : OutputTree) (name : List Char) : DirFiles :=
  ((t.dirs.find? fun d => decide (d.1 = name)).map Prod.snd).getD []

/-- Write a file inside an existing subdirectory. -/
def putFileInDir (t : OutputTree) (dir name : List Char) (c : FileContent) :
    OutputTree :=
  { t with dirs := t.dirs.map fun d =>
      if d.1 = dir then (d.1, putFile d.2 name c) else d }

/-- `pathlib`'s `Path.suffix`: the final dot-extension, empty for no dot,
a leading dot, or a trailing dot. -/
def pathSuffix (name : List Char) : List Char :=
  let ext := name.reverse.takeWhile (· ≠ '.')
  match name.reverse.dropWhile (· ≠ '.') with
  | [] => []
  | _ :: rest => if rest = [] ∨ ext = [] then [] else '.' :: ext.reverse

/-! ## Listing pages (`generate_index_pages`) -/

/-- The listing filename. -/
def indexName : List Char := str "index.html"

/-- One file link, from `f'<a href="{f}">{f}</a>'`. -/
def fileLink (f : List Char) : List Char :=
  str "<a href=\"" ++ f ++ str "\">" ++ f ++ str "</a>"

/-- One subdirectory link, from `f'<a href="{d}/">{d}/</a>'`. -/
def dirLink (d : List Char) : List Char :=
  str "<a href=\"" ++ d ++ str "/\">" ++ d ++ str "/</a>"

/-- Lexicographic (code-point) string order, as Python compares `str`. -/
def strLe : List Char → List Char → Bool
  | [], _ => true
  | _ :: _, [] => false
  | a :: xs, b :: ys => if a = b then strLe xs ys else decide (a < b)

/-- Insert into a sorted list (worker for `sortStr`). -/
def insertSorted (x : List Char) : List (List Char) → List (List Char)
  | [] => [x]
  | y :: ys => if strLe x y then x :: y :: ys else y :: insertSorted x ys

/-- Python `sorted()` on a list of strings, modelled by insertion sort. -/
def sortStr (l : List (List Char)) : List (List Char) :=
  l.foldr insertSorted []

/-- The `entries` list built by one iteration of the `os.walk` loop in
`generate_index_pages`: subdirectory links (outside the root only), then
file links, skipping `index.html` always and non-`.zip` files at the root. -/
def indexEntries (is_root : Bool) (dirnames filenames : List (List Char)) :
    List (List Char) :=
  let dirEntries := if is_root then [] else (sortStr dirnames).map dirLink
  let fileEntries := (sortStr filenames).filterMap fun f =>
    if f = indexName then none
    else if is_root && !(List.isSuffixOf (str ".zip") f) then none
    else some (fileLink f)
  dirEntries ++ fileEntries

/-- The page written for one directory:
`f'<html><body>\n{links}\n</body></html>\n'`. -/
def pageHtml (entries : List (List Char)) : List Char :=
  str "<html><body>\n" ++ joinLines entries ++ str "\n</body></html>\n"

/-- `generate_index_pages` from the source: walk the tree and write an
`index.html` per directory, computed from the files present before the
write (the walk captures each directory's `filenames` before writing). -/
def generate_index_pages (t : OutputTree) : OutputTree :=
  let rootHtml := pageHtml (indexEntries true (t.dirs.map Prod.fst)
    (t.rootFiles.map Prod.fst))
  { rootFiles := putFile t.rootFiles indexName (.text rootHtml),
    dirs := t.dirs.map fun d =>
      (d.1, putFile d.2 indexName
        (.text (pageHtml (indexEntries false [] (d.2.map Prod.fst))))) }

/-! ## The run environment

External collaborators are modelled by the data they hand the program:
the parsed configuration (`None` = `open`/`json.load` raised), the self
addon directory (`None` = `addon.xml` absent; its `ElementTree` root
attributes are environment-given), and per-project `gh` outcomes in
configuration order.  A missing entry of `world` behaves as a failed
release query. -/

/-- One configured addon from `addons.json`. -/
structure AddonCfg where
  repo : List Char
  addon_id : List Char
  asset_pattern : List Char
deriving DecidableEq

/-- The self repository-addon directory, when `addon.xml` exists. -/
structure SelfAddon where
  xmlText : List Char
  idAttr : Option (List Char)
  versionAttr : Option (List Char)
  files : List (List Char × List Char)
deriving DecidableEq

instance {ε α : Type} [DecidableEq ε] [DecidableEq α] : DecidableEq (Except ε α) := fun x y =>
  match x, y with
  | .error a, .error b =>
    if h : a = b then .isTrue (by rw [h]) else .isFalse (by simp [h])
  | .ok a, .ok b =>
    if h : a = b then .isTrue (by rw [h]) else .isFalse (by simp [h])
  | .error _, .ok _ => .isFalse (by simp)
  | .ok _, .error _ => .isFalse (by simp)

/-- External `gh` outcomes for one configured project. -/
structure ProjectWorld where
  fetch : Except (List Char) (List Char)
  downloadRC : Nat
  downloadedFiles : List (List Char × List ZipEntry)
deriving DecidableEq

/-- The whole external world of one run. -/
structure Env where
  configLoad : Option (List AddonCfg)
  selfAddon : Option SelfAddon
  world : List ProjectWorld
deriving DecidableEq

/-- The collaborator outcome for project `i` (absent entries behave as a
failed release query). -/
def worldAt (env : Env) (i : Nat) : ProjectWorld :=
  env.world.getD i ⟨.error [], 1, []⟩

/-- How the process ended. -/
inductive ExitStatus where
  | ok
  | exitFail : Nat → ExitStatus
  | configException
deriving DecidableEq

/-- `True`-like flag: did the process exit non-zero?  `sys.exit(1)` and an
uncaught configuration-loading exception are non-zero; falling off the end
of `main` is zero. -/
def exitNonZero : ExitStatus → Bool
  | .ok => false
  | _ => true

/-- Result of a run: exit status, final on-disk tree, accumulated manifest
fragments (`addon_xmls`) and warning lines printed. -/
structure RunResult where
  exit : ExitStatus
  tree : OutputTree
  fragments : List (List Char)
  warnings : List (List Char)
deriving DecidableEq

/-- Mutable state while the `main` loop runs. -/
structure RunState where
  tree : OutputTree
  fragments : List (List Char)
  warnings : List (List Char)
deriving DecidableEq

/-- Warning for a failed release query. -/
def warnFetch (repo stderr : List Char) : List Char :=
  str "  WARNING: Could not fetch release for " ++ repo ++ str ": " ++ stderr

/-- Warning for a missing matching asset. -/
def warnNoZip (pat repo tag : List Char) : List Char :=
  str "  WARNING: No zip found matching '" ++ pat ++ str "' in " ++ repo ++
    str " " ++ tag

/-- Warning for an archive without a manifest. -/
def warnNoManifest (zipName : List Char) : List Char :=
  str "  WARNING: No addon.xml found in " ++ zipName

/-- `download_asset` from the source: create the destination directory,
run `gh release download`; on non-zero return code report `None`, else the
downloaded files land in the directory and the first file there with
suffix `.zip` is returned. -/
def download_asset (t : OutputTree) (w : ProjectWorld) (destDir : List Char) :
    OutputTree × Option (List Char × FileContent) :=
  let t1 := ensureDir t destDir
  if w.downloadRC ≠ 0 then (t1, none)
  else
    let t2 := w.downloadedFiles.foldl
      (fun acc f => putFileInDir acc destDir f.1 (.archive f.2)) t1
    (t2, (dirFiles t2 destDir).find? fun e => decide (pathSuffix e.1 = str ".zip"))

/-- The self-package block of `main` (lines 112-141): read the repository
addon's `addon.xml`, zip the directory under `{id}/`, copy the zip to the
output root, accumulate the raw manifest text and write the zip's digest. -/
def selfStep (env : Env) (t : OutputTree) : OutputTree × List (List Char) :=
  match env.selfAddon with
  | none => (t, [])
  | some sa =>
    let addon_id := sa.idAttr.getD (str "repository.dangerouslaser")
    let version := sa.versionAttr.getD (str "1.0.0")
    let zipName := addon_id ++ str "-" ++ version ++ str ".zip"
    let zcontent : FileContent := .archive
      (sa.files.map fun f => (addon_id ++ str "/" ++ f.1, f.2))
    let t1 := ensureDir t addon_id
    let t2 := putFileInDir t1 addon_id zipName zcontent
    let t3 := { t2 with rootFiles := putFile t2.rootFiles zipName zcontent }
    let t4 := putFileInDir t3 addon_id (zipName ++ str ".md5")
      (.text (md5sum (fileBytes zcontent)))
    (t4, [sa.xmlText])

/-- One iteration of the configured-addon loop in `main` (lines 144-180):
a failed release query, a failed or zipless download, and an archive
without a manifest each skip the project with a warning; on success the
digest sidecar is written and the fragment accumulated. -/
def processAddon (s : RunState) (cfg : AddonCfg) (w : ProjectWorld) : RunState :=
  match w.fetch with
  | .error stderr =>
    { s with warnings := s.warnings ++ [warnFetch cfg.repo stderr] }
  | .ok tag =>
    let t1 := (download_asset s.tree w cfg.addon_id).1
    match (download_asset s.tree w cfg.addon_id).2 with
    | none =>
      { s with
        tree := t1
        warnings := s.warnings ++ [warnNoZip cfg.asset_pattern cfg.repo tag] }
    | some (zname, c) =>
      match c with
      | .text _ => { s with tree := t1 }
      | .archive entries =>
        match extract_addon_xml entries cfg.addon_id with
        | none =>
          { s with
            tree := t1
            warnings := s.warnings ++ [warnNoManifest zname] }
        | some xml =>
          { tree := putFileInDir t1 cfg.addon_id (zname ++ str ".md5")
              (.text (md5sum (fileBytes c)))
            fragments := s.fragments ++ [xml]
            warnings := s.warnings }

/-- `main` from the source, as a function of the external world and the
previously existing output tree: load the configuration (an exception there
propagates with the tree untouched), delete and recreate `dist/`, run the
self-package step, process each configured addon in order, exit `1` when no
fragment was accumulated, else write `addons.xml`, its digest and the
listing pages. -/
def main (env : Env) (t0 : OutputTree) : RunResult :=
  match env.configLoad with
  | none => { exit := .configException, tree := t0, fragments := [], warnings := [] }
  | some addons =>
    let selfOut := selfStep env { rootFiles := [], dirs := [] }
    let init : RunState := { tree := selfOut.1, fragments := selfOut.2, warnings := [] }
    let final := addons.enum.foldl
      (fun s p => processAddon s p.2 (worldAt env p.1)) init
    if final.fragments = [] then
      { exit := .exitFail 1
        tree := final.tree
        fragments := final.fragments
        warnings := final.warnings }
    else
      let addons_xml := generate_addons_xml final.fragments
      let t3 := { final.tree with
        rootFiles := putFile final.tree.rootFiles (str "addons.xml") (.text addons_xml) }
      let t4 := { t3 with
        rootFiles := putFile t3.rootFiles (str "addons.xml.md5") (.text (md5_string addons_xml)) }
      { exit := .ok
        tree := generate_index_pages t4
        fragments := final.fragments
        warnings := final.warnings }

/-! ## Spec-literal definitions used to compare against claims -/

/-- The per-fragment block exactly as claim C1 words it: split into lines,
drop XML-declaration lines, re-join — with no mention of the whole-fragment
strip the source performs. -/
def specBlockC1 (xml_content : List Char) : List Char :=
  joinLines ((pySplitlines xml_content).filter fun line =>
    !(List.isPrefixOf (str "<?xml") (pyStrip line)))

/-- Join blocks "separated from neighbors by a single blank line". -/
def blankJoin : List (List Char) → List Char
  | [] => []
  | [x] => x
  | x :: xs => x ++ str "\n\n" ++ blankJoin xs

/-- The Manifest Merger output as claim C1 literally describes it: fixed
declaration and opening tag, the fragment blocks separated by a single
blank line, then the closing tag. -/
def specMergeC1 (addon_xmls : List (List Char)) : List Char :=
  xmlHeader ++ '\n' :: blankJoin (addon_xmls.map specBlockC1) ++ '\n' :: xmlFooter

/-- Does the text contain a blank line (two consecutive newlines) anywhere? -/
def hasBlankSep : List Char → Bool
  | '\n' :: '\n' :: _ => true
  | _ :: rest => hasBlankSep rest
  | [] => false


/-! ## Derived shapes of the self-package step -/

/-- The id attribute of the self addon, with the source's default. -/
def selfAddonId (sa : SelfAddon) : List Char :=
  sa.idAttr.getD (str "repository.dangerouslaser")

/-- The zip filename the Self-Package Builder produces. -/
def selfZipName (sa : SelfAddon) : List Char :=
  selfAddonId sa ++ str "-" ++ sa.versionAttr.getD (str "1.0.0") ++ str ".zip"

/-- The archive the Self-Package Builder produces. -/
def selfZipContent (sa : SelfAddon) : FileContent :=
  .archive (sa.files.map fun f => (selfAddonId sa ++ str "/" ++ f.1, f.2))

/-- The self addon's subdirectory contents after the self-package step. -/
def selfDirFiles (sa : SelfAddon) : DirFiles :=
  [(selfZipName sa, selfZipContent sa),
   (selfZipName sa ++ str ".md5",
    .text (md5sum (fileBytes (selfZipContent sa))))]

/-- The whole output tree after the self-package step on a fresh root. -/
def selfTree (sa : SelfAddon) : OutputTree :=
  ⟨[(selfZipName sa, selfZipContent sa)], [(selfAddonId sa, selfDirFiles sa)]⟩

/-! ## Lemmas about the run loop -/

theorem putFileInDir_rootFiles (t : OutputTree) (d n : List Char)
    (c : FileContent) : (putFileInDir t d n c).rootFiles = t.rootFiles := rfl

theorem ensureDir_rootFiles (t : OutputTree) (n : List Char) :
    (ensureDir t n).rootFiles = t.rootFiles := by
  unfold ensureDir
  split <;> rfl

theorem download_foldl_rootFiles (d : List Char)
    (files : List (List Char × List ZipEntry)) : ∀ t : OutputTree,
    (files.foldl (fun acc f => putFileInDir acc d f.1 (.archive f.2))
      t).rootFiles = t.rootFiles := by
  induction files with
  | nil => intro t; rfl
  | cons f fs ih =>
    intro t
    rw [List.foldl_cons, ih, putFileInDir_rootFiles]

theorem download_asset_rootFiles (t : OutputTree) (w : ProjectWorld)
    (d : List Char) : (download_asset t w d).1.rootFiles = t.rootFiles := by
  unfold download_asset
  by_cases h : w.downloadRC ≠ 0
  · simp [h, ensureDir_rootFiles]
  · simp [h, download_foldl_rootFiles, ensureDir_rootFiles]

theorem processAddon_rootFiles (s : RunState) (cfg : AddonCfg)
    (w : ProjectWorld) :
    (processAddon s cfg w).tree.rootFiles = s.tree.rootFiles := by
  unfold processAddon
  cases hf : w.fetch with
  | error e => rfl
  | ok tag =>
    rcases hdl : (download_asset s.tree w cfg.addon_id).2 with _ | ⟨zname, c⟩
    · simp [hdl, download_asset_rootFiles]
    · cases c with
      | text s2 => simp [hdl, download_asset_rootFiles]
      | archive entries =>
        rcases hex : extract_addon_xml entries cfg.addon_id with _ | xml
        · simp [hdl, hex, download_asset_rootFiles]
        · simp [hdl, hex, putFileInDir_rootFiles, download_asset_rootFiles]

theorem processAddon_fragments (s : RunState) (cfg : AddonCfg)
    (w : ProjectWorld) :
    ∃ tl, (processAddon s cfg w).fragments = s.fragments ++ tl := by
  unfold processAddon
  cases hf : w.fetch with
  | error e => exact ⟨[], by simp⟩
  | ok tag =>
    rcases hdl : (download_asset s.tree w cfg.addon_id).2 with _ | ⟨zname, c⟩
    · exact ⟨[], by simp [hdl]⟩
    · cases c with
      | text s2 => exact ⟨[], by simp [hdl]⟩
      | archive entries =>
        rcases hex : extract_addon_xml entries cfg.addon_id with _ | xml
        · exact ⟨[], by simp [hdl, hex]⟩
        · exact ⟨[xml], by simp [hdl, hex]⟩

theorem foldProcess_rootFiles (env : Env) (l : List (Nat × AddonCfg)) :
    ∀ s : RunState,
    (l.foldl (fun s p => processAddon s p.2 (worldAt env p.1)) s).tree.rootFiles
      = s.tree.rootFiles := by
  induction l with
  | nil => intro s; rfl
  | cons p ps ih =>
    intro s
    rw [List.foldl_cons, ih, processAddon_rootFiles]

theorem foldProcess_fragments (env : Env) (l : List (Nat × AddonCfg)) :
    ∀ s : RunState, ∃ tl,
    (l.foldl (fun s p => processAddon s p.2 (worldAt env p.1)) s).fragments
      = s.fragments ++ tl := by
  induction l with
  | nil => intro s; exact ⟨[], by simp⟩
  | cons p ps ih =>
    intro s
    obtain ⟨t2, h2⟩ := ih (processAddon s p.2 (worldAt env p.1))
    obtain ⟨t1, h1⟩ := processAddon_fragments s p.2 (worldAt env p.1)
    exact ⟨t1 ++ t2, by rw [List.foldl_cons, h2, h1, List.append_assoc]⟩

theorem selfStep_none (env : Env) (t : OutputTree)
    (h : env.selfAddon = none) : selfStep env t = (t, []) := by
  simp [selfStep, h]

theorem selfStep_some_snd (env : Env) (t : OutputTree) (sa : SelfAddon)
    (h : env.selfAddon = some sa) : (selfStep env t).2 = [sa.xmlText] := by
  simp [selfStep, h]

/-- The exit status of a run is non-zero exactly when no fragment was
accumulated (shared between claim theorems). -/
theorem main_exit_iff_fragments (env : Env) (t0 : OutputTree) :
    exitNonZero (main env t0).exit = true ↔ (main env t0).fragments = [] := by
  unfold main
  cases hc : env.configLoad with
  | none => simp [exitNonZero]
  | some addons =>
    simp only
    split
    · simp [exitNonZero]
      assumption
    · simp [exitNonZero]
      assumption

/-! ## Lemmas about `joinLines` -/

theorem joinLines_cons (a : List Char) (l : List (List Char)) (h : l ≠ []) :
    joinLines (a :: l) = a ++ '\n' :: joinLines l := by
  cases l with
  | nil => exact absurd rfl h
  | cons x xs => rfl

theorem joinLines_append_single (m : List (List Char)) (b : List Char)
    (h : m ≠ []) : joinLines (m ++ [b]) = joinLines m ++ '\n' :: b := by
  induction m with
  | nil => exact absurd rfl h
  | cons x xs ih =>
    cases xs with
    | nil => rfl
    | cons y ys =>
      have hne : (y :: ys) ++ [b] ≠ [] := by simp
      calc joinLines (x :: (y :: ys ++ [b]))
          = x ++ '\n' :: joinLines (y :: ys ++ [b]) :=
            joinLines_cons x _ (by simp)
        _ = x ++ '\n' :: (joinLines (y :: ys) ++ '\n' :: b) := by
            rw [ih (by simp)]
        _ = (x ++ '\n' :: joinLines (y :: ys)) ++ '\n' :: b := by
            simp [List.append_assoc]

/-! ## Claim theorems -/

/-- C1 (counterexample): on the fragments `"\n<a/>"` and `"<b/>"`, the
output of `generate_addons_xml` is not the document the claim describes —
the fragment blocks are not separated by a single blank line (indeed no
blank line occurs in the output at all), and the fragment is trimmed before
splitting. -/
theorem mergerBlankLineCounterexample :
    generate_addons_xml [str "\n<a/>", str "<b/>"] ≠
      specMergeC1 [str "\n<a/>", str "<b/>"] ∧
    hasBlankSep (generate_addons_xml [str "\n<a/>", str "<b/>"]) = false := by
  decide

/-- C1 (amended): for every non-empty fragment sequence the output is the
fixed declaration and opening tag, then each fragment — first trimmed of
surrounding whitespace, with XML-declaration lines dropped and the rest
re-joined (`mergeFragment`) — in input order, the blocks separated from
their neighbors by a single newline (not a blank line), followed by the
closing tag. -/
theorem mergerNewlineSeparation (addon_xmls : List (List Char))
    (h : addon_xmls ≠ []) :
    generate_addons_xml addon_xmls =
      xmlHeader ++ '\n' :: joinLines (addon_xmls.map mergeFragment) ++
        '\n' :: xmlFooter := by
  have hm : addon_xmls.map mergeFragment ≠ [] := by
    simpa using h
  unfold generate_addons_xml
  have h1 : [xmlHeader] ++ addon_xmls.map mergeFragment ++ [xmlFooter] =
      xmlHeader :: (addon_xmls.map mergeFragment ++ [xmlFooter]) := by
    simp
  rw [h1,
    joinLines_cons xmlHeader (addon_xmls.map mergeFragment ++ [xmlFooter])
      (by simp),
    joinLines_append_single _ _ hm]
  simp [List.append_assoc]

/-- C1 (witness): the amended statement at a concrete one-fragment input. -/
theorem mergerNewlineSeparationWitness :
    generate_addons_xml [str "<a/>"] =
      xmlHeader ++ '\n' :: joinLines ([str "<a/>"].map mergeFragment) ++
        '\n' :: xmlFooter :=
  mergerNewlineSeparation [str "<a/>"] (by decide)

/-- C3: the Archive Inspector is a total scan of the entry list — it
returns the decoded content of the first entry (in archive iteration order)
whose basename is `addon.xml` and whose slash-stripped dirname is empty or
the addon id, and returns `none` (not an error) when no entry qualifies. -/
theorem archiveInspectorFirstMatch (entries : List ZipEntry)
    (addon_id : List Char) :
    extract_addon_xml entries addon_id =
      (entries.find? fun e => qualifies e.1 addon_id).map Prod.snd ∧
    ((∀ e ∈ entries, qualifies e.1 addon_id = false) →
      extract_addon_xml entries addon_id = none) := by
  have hfind : extract_addon_xml entries addon_id =
      (entries.find? fun e => qualifies e.1 addon_id).map Prod.snd := by
    induction entries with
    | nil => rfl
    | cons e rest ih =>
      by_cases hq : qualifies e.1 addon_id
      · simp [extract_addon_xml, List.find?_cons, hq]
      · simp only [extract_addon_xml, List.find?_cons, hq, if_false]
        simpa [hq] using ih
  refine ⟨hfind, fun hnone => ?_⟩
  rw [hfind, List.find?_eq_none.mpr (by simpa using hnone)]
  rfl

/-- C3 (witness): a concrete archive with no qualifying entry yields
`none`, and one with a qualifying entry yields its first match. -/
theorem archiveInspectorFirstMatchWitness :
    extract_addon_xml [(str "other/addon.xml", str "c")] (str "plugin.y") =
      none :=
  (archiveInspectorFirstMatch [(str "other/addon.xml", str "c")]
    (str "plugin.y")).2 (by decide)

/-! ## Lemmas about `pySplitlines` -/

theorem pySplitlinesAux_ne_nil (cs : List Char) : ∀ acc : List Char,
    cs ≠ [] ∨ acc ≠ [] → pySplitlinesAux cs acc false ≠ [] := by
  induction cs with
  | nil =>
    intro acc h
    have ha : acc ≠ [] := h.resolve_left (fun hc => hc rfl)
    simp [pySplitlinesAux, List.isEmpty_iff, ha]
  | cons c rest ih =>
    intro acc _
    simp only [pySplitlinesAux, Bool.false_and, Bool.false_eq_true, if_false]
    by_cases hcr : c = '\r'
    · simp [hcr]
    · rw [if_neg hcr]
      by_cases hb : pyIsLineBreak c
      · simp [hb]
      · rw [if_neg hb]
        exact ih (c :: acc) (Or.inr (by simp))

theorem getLast?_cons_of_ne_nil (c : Char) (rest : List Char)
    (h : rest ≠ []) : (c :: rest).getLast? = rest.getLast? := by
  cases rest with
  | nil => exact absurd rfl h
  | cons r rs => rfl

theorem joinLines_pySplitlinesAux (cs : List Char)
    (hbr : ∀ c ∈ cs, pyIsLineBreak c = true → c = '\n')
    (hlast : cs.getLast? ≠ some '\n') : ∀ acc : List Char,
    joinLines (pySplitlinesAux cs acc false) = acc.reverse ++ cs := by
  induction cs with
  | nil =>
    intro acc
    by_cases ha : acc = []
    · simp [pySplitlinesAux, ha, joinLines]
    · simp [pySplitlinesAux, List.isEmpty_iff, ha, joinLines]
  | cons c rest ih =>
    intro acc
    have hcr : ¬(c = '\r') := by
      intro hc
      have h1 := hbr c (by simp) (by rw [hc]; decide)
      rw [hc] at h1
      exact absurd h1 (by decide)
    have hbr2 : ∀ x ∈ rest, pyIsLineBreak x = true → x = '\n' := by
      intro x hx
      exact hbr x (List.mem_cons_of_mem c hx)
    have hlast2 : rest.getLast? ≠ some '\n' := by
      cases hr : rest with
      | nil => simp
      | cons r rs =>
        rw [← hr, ← getLast?_cons_of_ne_nil c rest (by simp [hr])]
        exact hlast
    simp only [pySplitlinesAux, Bool.false_and, Bool.false_eq_true, if_false]
    rw [if_neg hcr]
    by_cases hb : pyIsLineBreak c
    · have hcn : c = '\n' := hbr c (by simp) hb
      subst hcn
      rw [if_pos hb]
      have hrest : rest ≠ [] := by
        intro hr
        subst hr
        simp at hlast
      rw [joinLines_cons _ _ (pySplitlinesAux_ne_nil rest [] (Or.inl hrest)),
        ih hbr2 hlast2 []]
      simp
    · rw [if_neg hb, ih hbr2 hlast2 (c :: acc)]
      simp

/-- Inverse property: splitting a text whose only line breaks are `'\n'`
and which does not end in `'\n'` and re-joining with `"\n"` restores it. -/
theorem joinLines_pySplitlines (frag : List Char)
    (hbr : ∀ c ∈ frag, pyIsLineBreak c = true → c = '\n')
    (hlast : frag.getLast? ≠ some '\n') :
    joinLines (pySplitlines frag) = frag := by
  simpa using joinLines_pySplitlinesAux frag hbr hlast []

/-! ## Lemmas for the Checksum Engine -/

theorem foldl_append_eq_flatten (ls : List (List Nat)) (acc : List Nat) :
    ls.foldl (fun fed chunk => fed ++ chunk) acc = acc ++ ls.flatten := by
  induction ls generalizing acc with
  | nil => simp
  | cons x xs ih => simp [List.foldl_cons, ih, List.append_assoc]

theorem chunksOf_flatten {α : Type} (n : Nat) (hn : n ≠ 0) (l : List α) :
    (chunksOf n l).flatten = l := by
  have main : ∀ (len : Nat) (l : List α), l.length ≤ len →
      (chunksOf n l).flatten = l := by
    intro len
    induction len with
    | zero =>
      intro l hl
      have hnil : l = [] := by
        cases l with
        | nil => rfl
        | cons a t => simp at hl
      simp [hnil, chunksOf]
    | succ k ih =>
      intro l hl
      cases l with
      | nil => simp [chunksOf]
      | cons a t =>
        have hd : ((a :: t).drop n).length ≤ k := by
          simp only [List.length_drop, List.length_cons]
          simp only [List.length_cons] at hl
          omega
        rw [chunksOf, if_neg hn, List.flatten_cons, ih _ hd,
          List.take_append_drop]
  exact main l.length l le_rfl

/-- C4: the chunked streaming file digest refines the one-shot string
digest — `md5sum` on the UTF-8 bytes of `s` equals `md5_string s` (both are
MD5 of the same byte stream rendered in lowercase hex), every character
either operation emits is a lowercase hexadecimal digit, and both are
deterministic functions of the byte content. -/
theorem digestRefinement (s : List Char) (file : List Nat) :
    md5sum (utf8Encode s) = md5_string s ∧
    (∀ c ∈ md5sum file, c ∈ hexDigits) ∧
    (∀ c ∈ md5_string s, c ∈ hexDigits) ∧
    (∀ file2, file = file2 → md5sum file = md5sum file2) := by
  have hsum : ∀ bytes : List Nat, md5sum bytes = md5Hex bytes := by
    intro bytes
    unfold md5sum
    rw [foldl_append_eq_flatten, chunksOf_flatten 8192 (by decide) bytes]
    rfl
  have hhex : ∀ bytes : List Nat, ∀ c ∈ md5Hex bytes, c ∈ hexDigits := by
    intro bytes c hc
    unfold md5Hex at hc
    rcases List.mem_flatMap.mp hc with ⟨b, _, hb⟩
    have hlt1 : b / 16 % 16 < hexDigits.length := by
      have h16 : b / 16 % 16 < 16 := Nat.mod_lt _ (by norm_num)
      simpa [hexDigits, str] using h16
    have hlt2 : b % 16 < hexDigits.length := by
      have h16 : b % 16 < 16 := Nat.mod_lt _ (by norm_num)
      simpa [hexDigits, str] using h16
    simp only [byteToHex, List.mem_cons, List.not_mem_nil, or_false] at hb
    rcases hb with h1 | h1
    · rw [h1, List.getD_eq_getElem _ _ hlt1]
      exact List.getElem_mem hlt1
    · rw [h1, List.getD_eq_getElem _ _ hlt2]
      exact List.getElem_mem hlt2
  refine ⟨?_, ?_, ?_, ?_⟩
  · rw [hsum]
    rfl
  · rw [hsum]
    exact hhex file
  · exact hhex (utf8Encode s)
  · intro file2 hf
    rw [hf]

/-- C4 (witness): the refinement and the hex-alphabet property evaluated at
a concrete string. -/
theorem digestRefinementWitness :
    md5sum (utf8Encode (str "abc")) = md5_string (str "abc") ∧
    ('9' ∈ md5_string (str "abc") → '9' ∈ hexDigits) :=
  ⟨(digestRefinement (str "abc") []).1,
    fun h => (digestRefinement (str "abc") []).2.2.1 '9' h⟩

/-- C5 (counterexample): the fragment `"a\r\nb"` contains no
XML-declaration line, yet the Manifest Merger block built for it is neither
the fragment itself nor the fragment with surrounding whitespace removed —
the internal `"\r\n"` is rewritten to `"\n"`, so the fragment is not
included byte-for-byte even modulo surrounding separators. -/
theorem fragmentPassthroughCounterexample :
    ((pySplitlines (str "a\r\nb")).all fun line =>
      !(List.isPrefixOf (str "<?xml") (pyStrip line))) = true ∧
    mergeFragment (str "a\r\nb") ≠ str "a\r\nb" ∧
    mergeFragment (str "a\r\nb") ≠ pyStrip (str "a\r\nb") := by
  decide

/-- C5 (amended): a fragment whose only line-break characters are `'\n'`,
which the surrounding-whitespace strip leaves unchanged, and which contains
no XML-declaration line, is included in the merger output unchanged
byte-for-byte modulo the separators surrounding its block. -/
theorem fragmentPassthroughAmended (frag : List Char)
    (hbr : ∀ c ∈ frag, pyIsLineBreak c = true → c = '\n')
    (hstrip : pyStrip frag = frag)
    (hlast : frag.getLast? ≠ some '\n')
    (hdecl : ∀ line ∈ pySplitlines frag,
      List.isPrefixOf (str "<?xml") (pyStrip line) = false) :
    mergeFragment frag = frag := by
  have hfilter : (pySplitlines frag).filter
      (fun line => !(List.isPrefixOf (str "<?xml") (pyStrip line))) =
      pySplitlines frag :=
    List.filter_eq_self.mpr (by
      intro a ha
      simp [hdecl a ha])
  simp only [mergeFragment, hstrip, hfilter]
  exact joinLines_pySplitlines frag hbr hlast

/-- C5 (witness): a concrete two-line fragment with `'\n'` breaks and no
declaration line passes through unchanged. -/
theorem fragmentPassthroughAmendedWitness :
    mergeFragment (str "<addon id=\"a\">\n  <x/>\n</addon>") =
      str "<addon id=\"a\">\n  <x/>\n</addon>" :=
  fragmentPassthroughAmended (str "<addon id=\"a\">\n  <x/>\n</addon>")
    (by decide) (by decide) (by decide) (by decide)

/-- C6 (counterexample): handed the empty fragment sequence, the Manifest
Merger does not fail — it returns the fragment-less aggregate document. -/
theorem mergerEmptyProducesDocument :
    generate_addons_xml [] =
      str "<?xml version=\"1.0\" encoding=\"UTF-8\"?>\n<addons>\n</addons>\n" := by
  decide

/-! ## Lemmas about listing pages -/

theorem mem_insertSorted (x y : List Char) (l : List (List Char)) :
    y ∈ insertSorted x l ↔ y = x ∨ y ∈ l := by
  induction l with
  | nil => simp [insertSorted]
  | cons z zs ih =>
    unfold insertSorted
    split
    · simp
    · simp [ih]
      tauto

theorem mem_sortStr (x : List Char) (l : List (List Char)) :
    x ∈ sortStr l ↔ x ∈ l := by
  induction l with
  | nil => simp [sortStr]
  | cons a l ih =>
    show x ∈ insertSorted a (sortStr l) ↔ _
    rw [mem_insertSorted]
    simp [ih]

theorem fileLink_inj {f g : List Char} (h : fileLink f = fileLink g) :
    f = g := by
  unfold fileLink at h
  simp only [List.append_assoc] at h
  have h1 := List.append_cancel_left h
  have hlen : f.length = g.length := by
    have h2 := congrArg List.length h1
    simp only [List.length_append] at h2
    omega
  exact (List.append_inj h1 hlen).1

theorem dirLink_eq_fileLink (d : List Char) :
    dirLink d = fileLink (d ++ str "/") := by
  have h1 : (str "/\">" : List Char) = str "/" ++ str "\">" := by decide
  have h2 : (str "/</a>" : List Char) = str "/" ++ str "</a>" := by decide
  simp [dirLink, fileLink, h1, h2, List.append_assoc]

theorem dirLink_ne_fileLink_index (d : List Char) :
    dirLink d ≠ fileLink indexName := by
  rw [dirLink_eq_fileLink]
  intro h
  have h2 : d ++ str "/" = indexName := fileLink_inj h
  have h3 : (d ++ str "/").getLast? = some '/' := by
    have : (str "/" : List Char) = ['/'] := by decide
    rw [this, List.getLast?_concat]
  rw [h2] at h3
  exact absurd h3 (by decide)

/-- The listing entries in filter/map form, for either value of `is_root`. -/
theorem indexEntries_eq (is_root : Bool) (ds fs : List (List Char)) :
    indexEntries is_root ds fs =
      (if is_root then [] else (sortStr ds).map dirLink) ++
      ((sortStr fs).filter fun f => decide (f ≠ indexName) &&
        (!is_root || List.isSuffixOf (str ".zip") f)).map fileLink := by
  simp only [indexEntries]
  congr 1
  generalize sortStr fs = l
  set P : List Char → Option (List Char) := (fun f =>
    if f = indexName then none
    else if is_root && !(List.isSuffixOf (str ".zip") f) then none
    else some (fileLink f)) with hP
  set Q : List Char → Bool := (fun f => decide (f ≠ indexName) &&
    (!is_root || List.isSuffixOf (str ".zip") f)) with hQ
  induction l with
  | nil => rfl
  | cons a l ih =>
    by_cases h1 : a = indexName
    · have hpa : P a = none := by simp [hP, h1]
      have hqa : ¬ Q a = true := by simp [hQ, h1]
      rw [List.filterMap_cons_none hpa, List.filter_cons_of_neg hqa, ih]
    · by_cases h2 : List.isSuffixOf (str ".zip") a = true
      · have h2s : (['.', 'z', 'i', 'p'] : List Char) <:+ a :=
          List.isSuffixOf_iff_suffix.mp h2
        have hpa : P a = some (fileLink a) := by simp [hP, h1, h2, h2s]
        have hqa : Q a = true := by simp [hQ, h1, h2, h2s]
        rw [List.filterMap_cons_some hpa, List.filter_cons_of_pos hqa,
          List.map_cons, ih]
      · have h2s : ¬ ((['.', 'z', 'i', 'p'] : List Char) <:+ a) := fun hs =>
          h2 (List.isSuffixOf_iff_suffix.mpr hs)
        cases hroot : is_root
        · have hpa : P a = some (fileLink a) := by
            simp [hP, h1, h2, h2s, hroot]
          have hqa : Q a = true := by simp [hQ, h1, h2, h2s, hroot]
          rw [List.filterMap_cons_some hpa, List.filter_cons_of_pos hqa,
            List.map_cons, ih]
        · have hpa : P a = none := by simp [hP, h1, h2, h2s, hroot]
          have hqa : ¬ Q a = true := by simp [hQ, h1, h2, h2s, hroot]
          rw [List.filterMap_cons_none hpa, List.filter_cons_of_neg hqa, ih]

theorem find?_append_of_none (name : List Char) (c : FileContent)
    (files : DirFiles) (h : ∀ e ∈ files, e.1 ≠ name) :
    (files ++ [(name, c)]).find? (fun f => decide (f.1 = name)) =
      some (name, c) := by
  induction files with
  | nil => simp [List.find?]
  | cons e es ih =>
    have he : e.1 ≠ name := h e (by simp)
    rw [List.cons_append, List.find?_cons_of_neg _ (by simpa using he)]
    exact ih fun x hx => h x (List.mem_cons_of_mem e hx)

theorem find?_map_replace (name : List Char) (c : FileContent)
    (files : DirFiles)
    (h : (files.any fun e => decide (e.1 = name)) = true) :
    ((files.map fun e => if e.1 = name then (name, c) else e).find?
      (fun f => decide (f.1 = name))) = some (name, c) := by
  induction files with
  | nil => simp at h
  | cons e es ih =>
    by_cases he : e.1 = name
    · rw [List.map_cons, if_pos he, List.find?_cons_of_pos _ (by simp)]
    · have h2 : (es.any fun x => decide (x.1 = name)) = true := by
        rcases List.any_eq_true.mp h with ⟨x, hx, hpx⟩
        rcases List.mem_cons.mp hx with hx1 | hx2
        · subst hx1
          exact absurd (of_decide_eq_true hpx) he
        · exact List.any_eq_true.mpr ⟨x, hx2, hpx⟩
      rw [List.map_cons, if_neg he,
        List.find?_cons_of_neg _ (by simpa using he)]
      exact ih h2

theorem find?_putFile (files : DirFiles) (name : List Char) (c : FileContent) :
    (putFile files name c).find? (fun f => decide (f.1 = name)) =
      some (name, c) := by
  unfold putFile
  by_cases h : (files.any fun e => decide (e.1 = name)) = true
  · rw [if_pos h]
    exact find?_map_replace name c files h
  · rw [if_neg h]
    refine find?_append_of_none name c files fun e he => ?_
    intro heq
    exact h (List.any_eq_true.mpr ⟨e, he, by simpa using heq⟩)

theorem ne_append_of_ne_nil (l m : List Char) (h : m ≠ []) : l ≠ l ++ m := by
  intro heq
  have hl := congrArg List.length heq
  simp only [List.length_append] at hl
  have hm : m.length = 0 := by omega
  exact h (List.eq_nil_of_length_eq_zero hm)

theorem selfZipName_ne_md5 (sa : SelfAddon) :
    selfZipName sa ≠ selfZipName sa ++ str ".md5" :=
  ne_append_of_ne_nil _ _ (by decide)

theorem selfZipName_getLast (sa : SelfAddon) :
    (selfZipName sa).getLast? = some 'p' := by
  unfold selfZipName
  rw [List.getLast?_append]
  rfl

theorem selfZipName_ne_addonsXml (sa : SelfAddon) :
    selfZipName sa ≠ str "addons.xml" := by
  intro h
  have hl := selfZipName_getLast sa
  rw [h] at hl
  exact absurd hl (by decide)

theorem selfZipName_ne_addonsXmlMd5 (sa : SelfAddon) :
    selfZipName sa ≠ str "addons.xml.md5" := by
  intro h
  have hl := selfZipName_getLast sa
  rw [h] at hl
  exact absurd hl (by decide)

theorem selfZipName_ne_index (sa : SelfAddon) :
    selfZipName sa ≠ indexName := by
  intro h
  have hl := selfZipName_getLast sa
  rw [h] at hl
  exact absurd hl (by decide)

theorem selfStep_some_empty (env : Env) (sa : SelfAddon)
    (h : env.selfAddon = some sa) :
    selfStep env ⟨[], []⟩ = (selfTree sa, [sa.xmlText]) := by
  have hd : decide (selfZipName sa = selfZipName sa ++ str ".md5") = false :=
    decide_eq_false (selfZipName_ne_md5 sa)
  unfold selfStep
  rw [h]
  simp only [selfTree, selfDirFiles, selfAddonId, selfZipName,
    selfZipContent, ensureDir, putFileInDir, putFile, List.any_nil,
    List.any_cons, List.map_nil, List.map_cons, List.nil_append,
    List.append_nil, Bool.or_false, Bool.false_eq_true, if_false, hd]
  simp
  decide

/-- C2: the process exits non-zero if and only if zero manifest fragments
were accumulated over the whole run (self-package plus all configured
projects); with at least one fragment it exits zero even when individual
projects were skipped. -/
theorem exitNonzeroIffNoFragments (env : Env) (t0 : OutputTree) :
    exitNonZero (main env t0).exit = true ↔ (main env t0).fragments = [] :=
  main_exit_iff_fragments env t0

/-- C6 (amended): the fatal handling of the empty fragment sequence lives
in the Tree Publisher, not the merger — when a run accumulates zero
fragments it exits with `sys.exit(1)` before the Manifest Merger is
invoked, and no aggregate document (indeed no root file at all) is
produced; the merger itself, handed an empty sequence, would return a
fragment-less document. -/
theorem emptyFragmentsFatalBeforeMerge (env : Env) (t0 : OutputTree)
    (addons : List AddonCfg) (hc : env.configLoad = some addons)
    (h : (main env t0).fragments = []) :
    (main env t0).exit = .exitFail 1 ∧ (main env t0).tree.rootFiles = [] := by
  unfold main at h ⊢
  rw [hc] at h ⊢
  simp only at h ⊢
  by_cases hfin :
      (addons.enum.foldl (fun s p => processAddon s p.2 (worldAt env p.1))
        { tree := (selfStep env { rootFiles := [], dirs := [] }).1
          fragments := (selfStep env { rootFiles := [], dirs := [] }).2
          warnings := [] }).fragments = []
  · have hself : (selfStep env { rootFiles := [], dirs := [] }).2 = [] := by
      obtain ⟨tl, htl⟩ := foldProcess_fragments env addons.enum
        { tree := (selfStep env { rootFiles := [], dirs := [] }).1
          fragments := (selfStep env { rootFiles := [], dirs := [] }).2
          warnings := [] }
      rw [htl] at hfin
      exact List.append_eq_nil.mp hfin |>.1
    have hnone : env.selfAddon = none := by
      cases hsa : env.selfAddon with
      | none => rfl
      | some sa =>
        rw [selfStep_some_snd env _ sa hsa] at hself
        cases hself
    have htree : (selfStep env { rootFiles := [], dirs := [] }).1 =
        { rootFiles := [], dirs := [] } := by
      rw [selfStep_none env _ hnone]
    rw [if_pos hfin]
    refine ⟨rfl, ?_⟩
    rw [foldProcess_rootFiles, htree]
  · rw [if_neg hfin] at h
    exact absurd h hfin

/-- C6 (amended, witness): a run with an empty configuration and no
self-package exits `1` with an empty output root. -/
theorem emptyFragmentsFatalBeforeMergeWitness :
    (main ⟨some [], none, []⟩ ⟨[], []⟩).exit = .exitFail 1 ∧
    (main ⟨some [], none, []⟩ ⟨[], []⟩).tree.rootFiles = [] :=
  emptyFragmentsFatalBeforeMerge ⟨some [], none, []⟩ ⟨[], []⟩ [] rfl (by decide)

/-- C7: when loading the configuration fails, the run aborts with the
propagated exception before any mutation of the output directory — the
previously existing output tree is returned entirely unchanged. -/
theorem configErrorPreservesTree (env : Env) (t0 : OutputTree)
    (h : env.configLoad = none) :
    (main env t0).tree = t0 ∧ (main env t0).exit = .configException := by
  simp [main, h]

/-- C7 (witness): a concrete pre-existing tree survives a config failure. -/
theorem configErrorPreservesTreeWitness :
    (main ⟨none, none, []⟩
      ⟨[(str "old.txt", .text (str "x"))], []⟩).tree =
      ⟨[(str "old.txt", .text (str "x"))], []⟩ ∧
    (main ⟨none, none, []⟩
      ⟨[(str "old.txt", .text (str "x"))], []⟩).exit = .configException :=
  configErrorPreservesTree ⟨none, none, []⟩
    ⟨[(str "old.txt", .text (str "x"))], []⟩ rfl

/-- C8: errors of the external release-query and download collaborator are
caught at the acquisition boundary and become per-project skips with a
warning — a failed release query leaves the state unchanged except for the
warning, a failed download command likewise (with only the destination
directory created) — and no error propagates into the Tree Publisher,
whose only fatal outcome is the zero-fragments exit. -/
theorem collaboratorErrorsBecomeSkips (s : RunState) (cfg : AddonCfg)
    (w : ProjectWorld) (env : Env) (t0 : OutputTree) :
    (∀ stderr, w.fetch = .error stderr →
      processAddon s cfg w =
        { s with warnings := s.warnings ++ [warnFetch cfg.repo stderr] }) ∧
    (∀ tag, w.fetch = .ok tag → w.downloadRC ≠ 0 →
      processAddon s cfg w =
        { s with
          tree := ensureDir s.tree cfg.addon_id
          warnings := s.warnings ++
            [warnNoZip cfg.asset_pattern cfg.repo tag] }) ∧
    (exitNonZero (main env t0).exit = true → (main env t0).fragments = []) := by
  refine ⟨?_, ?_, (main_exit_iff_fragments env t0).mp⟩
  · intro stderr hf
    simp [processAddon, hf]
  · intro tag hf hrc
    simp [processAddon, hf, download_asset, hrc]

/-- C9: in the generated listing pages, the root listing links exactly the
`.zip`-suffixed files (skipping the listing filename), a subdirectory
listing links its subdirectory names and then all its files except the
listing filename, no listing ever links the listing-page filename itself,
and `generate_index_pages` writes exactly these pages (computed from the
files present before the write) into the root and into every
subdirectory. -/
theorem indexPagesListing (t : OutputTree) (b : Bool)
    (dirnames filenames : List (List Char)) :
    indexEntries true dirnames filenames =
      ((sortStr filenames).filter fun f =>
        decide (f ≠ indexName) && List.isSuffixOf (str ".zip") f).map
        fileLink ∧
    indexEntries false dirnames filenames =
      (sortStr dirnames).map dirLink ++
        ((sortStr filenames).filter fun f =>
          decide (f ≠ indexName)).map fileLink ∧
    fileLink indexName ∉ indexEntries b dirnames filenames ∧
    (generate_index_pages t).rootFiles.find?
        (fun f => decide (f.1 = indexName)) =
      some (indexName, .text (pageHtml (indexEntries true
        (t.dirs.map Prod.fst) (t.rootFiles.map Prod.fst)))) ∧
    (generate_index_pages t).dirs = t.dirs.map fun d =>
      (d.1, putFile d.2 indexName
        (.text (pageHtml (indexEntries false [] (d.2.map Prod.fst))))) := by
  refine ⟨?_, ?_, ?_, ?_, ?_⟩
  · have h := indexEntries_eq true dirnames filenames
    simpa using h
  · have h := indexEntries_eq false dirnames filenames
    simpa using h
  · intro hmem
    rw [indexEntries_eq] at hmem
    rcases List.mem_append.mp hmem with hm | hm
    · cases b
      · rcases List.mem_map.mp (by simpa using hm) with ⟨d, _, hd⟩
        exact dirLink_ne_fileLink_index d hd
      · simp at hm
    · rcases List.mem_map.mp hm with ⟨f, hf, hlink⟩
      have hfi : f = indexName := fileLink_inj hlink
      have hkeep := (List.mem_filter.mp hf).2
      rw [hfi] at hkeep
      simp at hkeep
  · exact find?_putFile t.rootFiles indexName _
  · rfl

/-- C9 (witness): the listing properties evaluated at a concrete tree and
directory contents. -/
theorem indexPagesListingWitness :
    fileLink indexName ∉
      indexEntries false [str "d"] [str "index.html", str "a.zip"] ∧
    (generate_index_pages
        ⟨[(str "a.zip", .text (str "x"))], []⟩).rootFiles.find?
        (fun f => decide (f.1 = indexName)) =
      some (indexName, .text (pageHtml (indexEntries true []
        [str "a.zip"]))) := by
  have h := indexPagesListing ⟨[(str "a.zip", .text (str "x"))], []⟩ false
    [str "d"] [str "index.html", str "a.zip"]
  exact ⟨h.2.2.1, h.2.2.2.1⟩

/-- C8 (witness): a concrete failed release query becomes a skip with the
corresponding warning. -/
theorem collaboratorErrorsBecomeSkipsWitness :
    processAddon ⟨⟨[], []⟩, [], []⟩ ⟨str "o/r", str "p.x", str "*.zip"⟩
      ⟨.error (str "boom"), 1, []⟩ =
      ⟨⟨[], []⟩, [], [warnFetch (str "o/r") (str "boom")]⟩ := by
  have h := (collaboratorErrorsBecomeSkips ⟨⟨[], []⟩, [], []⟩
    ⟨str "o/r", str "p.x", str "*.zip"⟩ ⟨.error (str "boom"), 1, []⟩
    ⟨none, none, []⟩ ⟨[], []⟩).1 (str "boom") rfl
  simpa using h

set_option synthInstance.maxHeartbeats 400000 in
/-- C10: for a configured project whose latest release is found and whose
download succeeds with an archive that yields no manifest fragment, the run
(with the self-package present and a distinct identifier) finishes with
exit zero, the downloaded archive file remains in the project's
subdirectory, no checksum sidecar is written beside it, and the archive is
still linked from the subdirectory's listing page. -/
theorem skippedManifestKeepsArchive (cfg : AddonCfg) (sa : SelfAddon)
    (tag zname : List Char) (zentries : List ZipEntry) (t0 : OutputTree)
    (r : RunResult)
    (hsuffix : pathSuffix zname = str ".zip")
    (hextract : extract_addon_xml zentries cfg.addon_id = none)
    (hid : sa.idAttr.getD (str "repository.dangerouslaser") ≠ cfg.addon_id)
    (hr : r = main ⟨some [cfg], some sa,
      [⟨.ok tag, 0, [(zname, zentries)]⟩]⟩ t0) :
    r.exit = .ok ∧
    (dirFiles r.tree cfg.addon_id).find? (fun f => decide (f.1 = zname)) =
      some (zname, .archive zentries) ∧
    (dirFiles r.tree cfg.addon_id).find?
      (fun f => decide (f.1 = zname ++ str ".md5")) = none ∧
    (dirFiles r.tree cfg.addon_id).find? (fun f => decide (f.1 = indexName)) =
      some (indexName, .text (pageHtml (indexEntries false [] [zname]))) ∧
    fileLink zname ∈ indexEntries false [] [zname] := by
  subst hr
  have hzin : zname ≠ indexName := by
    intro h
    rw [h] at hsuffix
    exact absurd hsuffix (by decide)
  have hzmd : zname ≠ zname ++ str ".md5" :=
    ne_append_of_ne_nil zname (str ".md5") (by decide)
  have himd : indexName ≠ zname ++ str ".md5" := by
    intro h
    have hl := congrArg List.getLast? h
    rw [List.getLast?_append] at hl
    have h5 : (str ".md5").getLast?.or zname.getLast? = some '5' := rfl
    rw [h5] at hl
    exact absurd hl (by decide)
  have hid0 : ¬ (selfAddonId sa = cfg.addon_id) := hid
  have hstep : processAddon ⟨selfTree sa, [sa.xmlText], []⟩ cfg
      ⟨Except.ok tag, 0, [(zname, zentries)]⟩ =
      ⟨⟨[(selfZipName sa, selfZipContent sa)],
        [(selfAddonId sa, selfDirFiles sa),
         (cfg.addon_id, [(zname, FileContent.archive zentries)])]⟩,
       [sa.xmlText], [warnNoManifest zname]⟩ := by
    simp [processAddon, download_asset, ensureDir, putFileInDir, putFile,
      dirFiles, selfTree, hid0, hsuffix, hextract]
  have hmain : main ⟨some [cfg], some sa,
      [⟨Except.ok tag, 0, [(zname, zentries)]⟩]⟩ t0 =
      { exit := .ok
        tree := generate_index_pages
          ⟨[(selfZipName sa, selfZipContent sa),
            (str "addons.xml", .text (generate_addons_xml [sa.xmlText])),
            (str "addons.xml.md5",
             .text (md5_string (generate_addons_xml [sa.xmlText])))],
           [(selfAddonId sa, selfDirFiles sa),
            (cfg.addon_id, [(zname, FileContent.archive zentries)])]⟩
        fragments := [sa.xmlText]
        warnings := [warnNoManifest zname] } := by
    simp only [main]
    rw [selfStep_some_empty _ sa rfl]
    have henum : ([cfg] : List AddonCfg).enum = [(0, cfg)] := rfl
    rw [henum]
    simp only [List.foldl_cons, List.foldl_nil]
    have hw : worldAt ⟨some [cfg], some sa,
        [⟨Except.ok tag, 0, [(zname, zentries)]⟩]⟩ ((0 : Nat), cfg).1 =
        ⟨Except.ok tag, 0, [(zname, zentries)]⟩ := rfl
    rw [hw, hstep]
    have hx : (str "addons.xml" : List Char) ≠ str "addons.xml.md5" := by
      decide
    simp [putFile, selfZipName_ne_addonsXml sa, selfZipName_ne_addonsXmlMd5 sa,
      hx]
  rw [hmain]
  refine ⟨rfl, ?_, ?_, ?_, ?_⟩
  · simp [generate_index_pages, dirFiles, putFile, hid0, hzin]
  · simp [generate_index_pages, dirFiles, putFile, hid0, hzin, hzmd, himd]
  · simp [generate_index_pages, dirFiles, putFile, hid0, hzin]
  · simp [indexEntries, sortStr, insertSorted, hzin]

/-- C10 (witness): a concrete one-project run whose downloaded archive
holds no manifest leaves no checksum sidecar beside the archive. -/
theorem skippedManifestKeepsArchiveWitness :
    (dirFiles (main ⟨some [⟨str "o/r", str "plugin.y", str "*.zip"⟩],
        some ⟨str "<addon/>", some (str "repository.x"), some (str "1.0"), []⟩,
        [⟨.ok (str "v1"), 0, [(str "plugin.y-1.0.zip",
          [(str "data.bin", str "junk")])]⟩]⟩ ⟨[], []⟩).tree
      (str "plugin.y")).find?
      (fun f => decide (f.1 = str "plugin.y-1.0.zip" ++ str ".md5")) =
      none ∧
    fileLink (str "plugin.y-1.0.zip") ∈
      indexEntries false [] [str "plugin.y-1.0.zip"] := by
  have h := skippedManifestKeepsArchive
    ⟨str "o/r", str "plugin.y", str "*.zip"⟩
    ⟨str "<addon/>", some (str "repository.x"), some (str "1.0"), []⟩
    (str "v1") (str "plugin.y-1.0.zip") [(str "data.bin", str "junk")]
    ⟨[], []⟩ _ (by decide) (by decide) (by decide) rfl
  exact ⟨h.2.2.1, h.2.2.2.2⟩

end RepoGen
